import Mathlib

/-!
Verification of the FDIC state-table export parser, record combiner and
log-scale normalizer (`fdic_scraper.py`, `log_transform_fdic.py`).

The Python source is shallowly embedded: each Python helper becomes a Lean
function over `List Char` / `List String`; Python exceptions are modelled by
`Except PyErr`; a `readlines` result is modelled as a `List String` with the
trailing newline of each line already removed (every use in the source first
strips or trims the field, so this is observationally equivalent); Python
`float` values parsed from the export's decimal fields are modelled exactly as
scaled decimal integers (`PyNum`, value `mant / 10 ^ exp`), which is lossless
for the decimal strings the parser accepts.  The offline log normalizer is
modelled over `ℚ` (column data) and `ℝ` (the transform).
-/

namespace FDIC

/-! ### Python string primitives (over `List Char`) -/

/-- Python whitespace for `str.strip()` (ASCII subset). -/
def pySpace (c : Char) : Bool :=
  c == ' ' || c == '\t' || c == '\n' || c == '\r' || c == '\x0b' || c == '\x0c'

/-- Python `s.strip()`. -/
def strTrim (s : String) : String :=
  ⟨((s.data.dropWhile pySpace).reverse.dropWhile pySpace).reverse⟩

/-- Python `s.strip('"')`: remove all leading and trailing double quotes. -/
def stripQuotes (s : String) : String :=
  ⟨((s.data.dropWhile (· == '"')).reverse.dropWhile (· == '"')).reverse⟩

/-- `needle` occurs as a contiguous subsequence of `hay`. -/
def seqContains (hay needle : List Char) : Bool :=
  match hay with
  | [] => needle.isEmpty
  | _ :: tl => List.isPrefixOf needle hay || seqContains tl needle

/-- Python `needle in hay` on strings (substring containment). -/
def strContains (hay needle : String) : Bool :=
  seqContains hay.data needle.data

/-- Python `s.split(c)` for a single-character separator. -/
def charSplit (c : Char) (s : String) : List String :=
  (s.data.splitOn c).map (fun l => ⟨l⟩)

/-- The prefix of `s` before the first occurrence of (non-empty) `sep`;
this is Python `s.split(sep)[0]`. -/
def seqBefore (sep : List Char) : List Char → List Char
  | [] => []
  | c :: cs => if List.isPrefixOf sep (c :: cs) then [] else c :: seqBefore sep cs

def strBefore (sep s : String) : String := ⟨seqBefore sep.data s.data⟩

/-- Python `s.replace(",", "")`. -/
def removeCommas (s : String) : String := ⟨s.data.filter (fun c => !(c == ','))⟩

/-- Python string `<` (lexicographic by code point), as a Boolean. -/
def listLtb : List Char → List Char → Bool
  | [], [] => false
  | [], _ :: _ => true
  | _ :: _, [] => false
  | a :: as, b :: bs =>
      if a.toNat < b.toNat then true else if b.toNat < a.toNat then false else listLtb as bs

def pyStrLtb (s t : String) : Bool := listLtb s.data t.data

/-- Python `str.isupper()` restricted to ASCII: at least one cased character
and no lowercase character. -/
def pyIsUpper (s : String) : Bool :=
  s.data.any Char.isAlpha && s.data.all (fun c => !(c.isLower))

/-! ### Python numbers -/

/-- Python exceptions relevant to the embedded code. -/
inductive PyErr where
  | indexError
  | valueError
  | typeError
deriving DecidableEq

/-- A Python float parsed from a plain decimal string, kept exactly as
`mant / 10 ^ exp` (lossless for the inputs the scraper accepts). -/
structure PyNum where
  mant : Int
  exp : Nat
deriving DecidableEq

def digitsVal (cs : List Char) : Nat :=
  cs.foldl (fun a c => a * 10 + (c.toNat - '0'.toNat)) 0

def allDigits (cs : List Char) : Bool := cs.all Char.isDigit

/-- Unsigned part of Python `float(...)` on plain decimals (no exponent
notation, which the export fields never use). -/
def parseUFloat (cs : List Char) : Option PyNum :=
  match cs.splitOn '.' with
  | [ip] => if ip ≠ [] ∧ allDigits ip then some ⟨digitsVal ip, 0⟩ else none
  | [ip, fp] =>
      if allDigits ip ∧ allDigits fp ∧ (ip ≠ [] ∨ fp ≠ []) then
        some ⟨digitsVal ip * 10 ^ fp.length + digitsVal fp, fp.length⟩
      else none
  | _ => none

/-- Python `float(s)` (raises `ValueError` on failure). -/
def pyFloat (s : String) : Except PyErr PyNum :=
  let t := (strTrim s).data
  match
    (match t with
     | '-' :: r => (parseUFloat r).map (fun q => ⟨-q.mant, q.exp⟩)
     | '+' :: r => parseUFloat r
     | r => parseUFloat r) with
  | some q => .ok q
  | none => .error .valueError

/-- Python `int(s)` (raises `ValueError` on failure). -/
def pyInt (s : String) : Except PyErr Int :=
  let t := (strTrim s).data
  match t with
  | '-' :: r => if r ≠ [] ∧ allDigits r then .ok (-(digitsVal r : Int)) else .error .valueError
  | '+' :: r => if r ≠ [] ∧ allDigits r then .ok (digitsVal r : Int) else .error .valueError
  | r => if r ≠ [] ∧ allDigits r then .ok (digitsVal r : Int) else .error .valueError

/-- `n` zero-padded on the left to `k` digits. -/
def padZeros (n : Nat) (k : Nat) : String :=
  let s := Nat.repr n
  ⟨List.replicate (k - s.data.length) '0' ++ s.data⟩

/-- Python `str(x)` for a float holding an exact decimal value: integer part,
a dot, and the fractional digits with trailing zeros removed (`.0` when the
value is integral).  (Values ≥ 1e16, which switch to scientific notation in
Python, do not occur in the claims.) -/
def floatStr (q : PyNum) : String :=
  let sgn := if q.mant < 0 then "-" else ""
  let a := q.mant.natAbs
  let ip := a / 10 ^ q.exp
  let fr := a % 10 ^ q.exp
  let frDigits := (padZeros fr q.exp).data.reverse.dropWhile (· == '0') |>.reverse
  sgn ++ Nat.repr ip ++ "." ++ (if frDigits.isEmpty then "0" else ⟨frDigits⟩)

instance [DecidableEq ε] [DecidableEq α] : DecidableEq (Except ε α) := fun a b =>
  match a, b with
  | .ok x, .ok y => if h : x = y then .isTrue (by rw [h]) else .isFalse (by simp [h])
  | .error x, .error y => if h : x = y then .isTrue (by rw [h]) else .isFalse (by simp [h])
  | .ok _, .error _ => .isFalse (by simp)
  | .error _, .ok _ => .isFalse (by simp)

/-! ### Python containers -/

/-- Python `xs[i]` on a list (raises `IndexError` out of range). -/
def pyGetE : List α → Nat → Except PyErr α
  | [], _ => .error .indexError
  | x :: _, 0 => .ok x
  | _ :: xs, n + 1 => pyGetE xs n

/-- A Python `for` loop threading an accumulator, stopping at the first
raised exception. -/
def exFoldlM (f : β → α → Except PyErr β) (b : β) : List α → Except PyErr β
  | [] => .ok b
  | x :: xs =>
      match f b x with
      | .ok b' => exFoldlM f b' xs
      | .error e => .error e

/-- A Python `for` loop building a list of results. -/
def exMapM (f : α → Except PyErr β) : List α → Except PyErr (List β)
  | [] => .ok []
  | x :: xs =>
      match f x with
      | .ok y =>
          match exMapM f xs with
          | .ok ys => .ok (y :: ys)
          | .error e => .error e
      | .error e => .error e

/-- Python `enumerate(xs, n)`. -/
def enumFrom (n : Nat) : List α → List (Nat × α)
  | [] => []
  | x :: xs => (n, x) :: enumFrom (n + 1) xs

/-- Python `d[k] = v` on an insertion-ordered dict (replace in place,
else append). -/
def dictSet (d : List (String × α)) (k : String) (v : α) : List (String × α) :=
  match d with
  | [] => [(k, v)]
  | (k', v') :: rest => if k' = k then (k, v) :: rest else (k', v') :: dictSet rest k v

/-- Python `d.get(k)` (`none` when the key is absent). -/
def dictGet? (d : List (String × α)) (k : String) : Option α :=
  match d with
  | [] => none
  | (k', v') :: rest => if k' = k then some v' else dictGet? rest k

/-! ### `convert_date` -/

def monthNames : List String :=
  ["January", "February", "March", "April", "May", "June", "July", "August",
   "September", "October", "November", "December"]

def monthNumber? (s : String) : Option Nat :=
  (enumFrom 1 monthNames).findSome? (fun p => if List.isPrefixOf p.2.data s.data then some p.1 else none)

def isLeap (y : Nat) : Bool := (y % 4 == 0 && y % 100 != 0) || y % 400 == 0

def daysInMonth (y m : Nat) : Nat :=
  if m == 2 then (if isLeap y then 29 else 28)
  else if m == 4 || m == 6 || m == 9 || m == 11 then 30
  else 31

/-- `datetime.strptime(s, "%B %d, %Y")`: long month name, space, 1–2 digit
day, comma, space, 4-digit year; the day must be valid for the month. -/
def strptimeBdY (s : String) : Option (Nat × Nat × Nat) := do
  let m ← monthNumber? s
  let name ← pyGetE monthNames (m - 1) |>.toOption
  match s.data.drop name.data.length with
  | ' ' :: r1 =>
      let ds := r1.takeWhile Char.isDigit
      let d := digitsVal ds
      if ds.length = 0 ∨ 2 < ds.length ∨ d = 0 then none else
      match r1.drop ds.length with
      | ',' :: ' ' :: r3 =>
          if r3.length = 4 ∧ allDigits r3 then
            let y := digitsVal r3
            if 1 ≤ y ∧ d ≤ daysInMonth y m then some (m, d, y) else none
          else none
      | _ => none
  | _ => none

/-- `convert_date`: "Month DD, YYYY" → "MM/DD/YYYY"; on failure the input is
returned unchanged (the Python wraps `strptime` in try/except). -/
def convert_date (s : String) : String :=
  match strptimeBdY s with
  | some (m, d, y) => padZeros m 2 ++ "/" ++ padZeros d 2 ++ "/" ++ padZeros y 4
  | none => s

/-! ### `process_file` (the export parser) -/

/-- One parsed per-jurisdiction record (`state_data` in the source): the
`'State'`/`'Date'` entries plus the `"<var> - <category>"` cells; a cell
holding `none` is Python `None`. -/
structure Row where
  state : String
  date : String
  cells : List (String × Option PyNum)
deriving DecidableEq

def mkKey (var cat : String) : String := var ++ " - " ++ cat

/-- The `'",,,"'` delimiter of the date line. -/
def qcomma : String := "\",,,\""

/-- `lines[4].split('",,,"')[0].split('\n')[-1].strip()` then `convert_date`. -/
def extractDate (lines : List String) : Except PyErr String := do
  let dateLine ← pyGetE lines 4
  pure (convert_date (strTrim ((charSplit '\n' (strBefore qcomma dateLine)).getLastD "")))

/-- The acceptance test for a candidate jurisdiction label read from lines
3/6/9: non-empty, not containing "National", and containing no long month
name. -/
def acceptState (s : String) : Bool :=
  (s ≠ "" : Bool) && !(strContains s "National") && !(monthNames.any (fun m => strContains s m))

/-- The candidate filter of the claim's wording ("is not itself a long month
name"), for comparison with `acceptState`. -/
def specAcceptState (s : String) : Bool :=
  (s ≠ "" : Bool) && !(strContains s "National") && !(monthNames.contains s)

/-- Jurisdiction labels from lines 3, 6 and 9. -/
def extractStates (lines : List String) : Except PyErr (List String) := do
  let l3 ← pyGetE lines 3
  let l6 ← pyGetE lines 6
  let l9 ← pyGetE lines 9
  pure ((([l3, l6, l9].map (fun l => stripQuotes (strTrim l))).filter acceptState))

/-- `category_indices` from the source. -/
def catIndices? : String → Option (List Nat)
  | "All Institutions" => some [0, 3, 6]
  | "Assets Less Than $1 Billion" => some [1, 4, 7]
  | "Assets Greater Than $1 Billion" => some [2, 5, 8]
  | _ => none

def categoriesAll : List String :=
  ["All Institutions", "Assets Less Than $1 Billion", "Assets Greater Than $1 Billion"]

/-- The numeric fields of a metric row: `line.split('"')[3::2]`, each
non-blank field parsed as a float after dropping commas, with the literal
`0*` read as `0.0`. -/
def everyOther : List α → List α
  | [] => []
  | [a] => [a]
  | a :: _ :: rest => a :: everyOther rest

def parseRowValues (line : String) : Except PyErr (List PyNum) :=
  exFoldlM
    (fun acc x =>
      if strTrim x = "" then pure acc
      else if strTrim x = "0*" then pure (acc ++ [⟨0, 0⟩])
      else do pure (acc ++ [← pyFloat (removeCommas x)]))
    [] (everyOther ((charSplit '"' line).drop 3))

/-- The per-state body of the `for i, state in enumerate(states)` loop. -/
def processState (lines : List String) (vars cats : List String) (date : String)
    (i : Nat) (st : String) : Except PyErr Row := do
  let cells ← exFoldlM
    (fun acc var =>
      match lines.find? (fun l => strContains l var) with
      | some varLine => do
          let vals ← parseRowValues varLine
          exFoldlM
            (fun a cat =>
              match catIndices? cat with
              | some idxs => do
                  let idx ← pyGetE idxs i
                  pure (dictSet a (mkKey var cat) (vals.get? idx))
              | none => pure a)
            acc cats
      | none => pure (cats.foldl (fun a cat => dictSet a (mkKey var cat) none) acc))
    [] vars
  pure ⟨st, date, cells⟩

/-- `process_file` up to its `except` clause (callers always pass explicit
variable and category lists, so the `None` defaults are elided). -/
def processFile (lines : List String) (vars cats : List String) : Except PyErr (List Row) := do
  let date ← extractDate lines
  let sts ← extractStates lines
  exMapM (fun p => processState lines vars cats date p.1 p.2) (enumFrom 0 sts)

/-! ### `get_available_variables` (the variable catalog) -/

/-- The scan loop of `get_available_variables`. -/
def gavLoop (collecting : Bool) (acc : List String) : List String → Except PyErr (List String)
  | [] => .ok acc
  | line :: rest =>
      if strContains line "AGGREGATE CONDITION" then gavLoop true acc rest
      else if collecting && pyIsUpper (strTrim line) then .ok acc
      else if collecting && (strTrim line ≠ "" : Bool) && !(pyIsUpper (strTrim line)) then
        match pyGetE (charSplit '"' line) 1 with
        | .error e => .error e
        | .ok f =>
            let var := strTrim f
            if (var ≠ "" : Bool) && !(acc.contains var) then gavLoop collecting (acc ++ [var]) rest
            else gavLoop collecting acc rest
      else gavLoop collecting acc rest

/-- `get_available_variables` on the sample file's lines: the function-level
`except` turns any raised exception into an empty catalog. -/
def get_available_variables (lines : List String) : List String :=
  match gavLoop false [] lines with
  | .ok vs => vs
  | .error _ => []

/-! ### `combine_data` (the record combiner) -/

/-- The Python sort key: `(state, year, month, day)` when the date splits
into three `int()`-convertible parts, otherwise the `(state, raw)` fallback. -/
inductive SKey where
  | dated (st : String) (y m d : Int)
  | raw (st : String) (ds : String)
deriving DecidableEq

def sortKeyParts (date : String) : Except PyErr (Option (Int × Int × Int)) :=
  match charSplit '/' date with
  | [p1, p2, p3] => do
      let m ← pyInt p1
      let d ← pyInt p2
      let y ← pyInt p3
      pure (some (y, m, d))
  | _ => pure none

def sortKey (r : Row) : Except PyErr SKey := do
  match ← sortKeyParts r.date with
  | some (y, m, d) => pure (.dated r.state y m d)
  | none => pure (.raw r.state r.date)

/-- Pure comparison of two `dated` keys (Python tuple `<` on
`(str, int, int, int)`). -/
def dkLtb : SKey → SKey → Bool
  | .dated s1 y1 m1 d1, .dated s2 y2 m2 d2 =>
      pyStrLtb s1 s2 ||
        (s1 == s2 && (decide (y1 < y2) ||
          (y1 == y2 && (decide (m1 < m2) || (m1 == m2 && decide (d1 < d2))))))
  | _, _ => false

/-- Python `<` on sort keys; comparing an `int` with a `str` (a `dated` key
against a `raw` key of the same state) raises `TypeError`. -/
def keyLt : SKey → SKey → Except PyErr Bool
  | .dated s1 y1 m1 d1, .dated s2 y2 m2 d2 => .ok (dkLtb (.dated s1 y1 m1 d1) (.dated s2 y2 m2 d2))
  | .raw s1 r1, .raw s2 r2 => .ok (pyStrLtb s1 s2 || (s1 == s2 && pyStrLtb r1 r2))
  | .dated s1 _ _ _, .raw s2 _ =>
      if pyStrLtb s1 s2 then .ok true else if pyStrLtb s2 s1 then .ok false
      else .error .typeError
  | .raw s1 _, .dated s2 _ _ _ =>
      if pyStrLtb s1 s2 then .ok true else if pyStrLtb s2 s1 then .ok false
      else .error .typeError

/-- Stable insertion of a keyed row into an already-sorted keyed list
(`x` is placed before the first element not strictly below it). -/
def insertRow (kx : SKey) (x : Row) : List (SKey × Row) → Except PyErr (List (SKey × Row))
  | [] => .ok [(kx, x)]
  | (ky, y) :: ys =>
      match keyLt ky kx with
      | .error e => .error e
      | .ok true => do pure ((ky, y) :: (← insertRow kx x ys))
      | .ok false => .ok ((kx, x) :: (ky, y) :: ys)

/-- Stable ascending sort of the keyed records (models Python's stable
`sorted`, including the `TypeError` on incomparable keys). -/
def isortE : List (SKey × Row) → Except PyErr (List (SKey × Row))
  | [] => .ok []
  | p :: ps => do insertRow p.1 p.2 (← isortE ps)

/-- `sorted(all_data, key=sort_key)`: keys are computed once, in list order,
then the decorated list is sorted. -/
def combineSorted (ad : List Row) : Except PyErr (List Row) := do
  let keyed ← exMapM (fun r => do pure ((← sortKey r), r)) ad
  let sorted ← isortE keyed
  pure (sorted.map (fun p => p.2))

/-- The accumulated records of all files: a file whose parse raised is
skipped (`process_file` returned `None`), the rest contribute in order. -/
def allData (files : List (List String)) (vars cats : List String) : List Row :=
  files.foldl (fun acc f => acc ++ ((processFile f vars cats).toOption.getD [])) []

/-- The `(variable, category)` pairs in header/request order. -/
def requestPairs (vars cats : List String) : List (String × String) :=
  vars.flatMap (fun v => cats.map (fun c => (v, c)))

def headerParts (vars cats : List String) : List String :=
  ["Obs", "State", "Date"] ++ (requestPairs vars cats).map (fun p => mkKey p.1 p.2)

/-- `str(row.get(key, ''))`: an absent key gives `''`, a stored `None` gives
the literal text `"None"`, a stored float its decimal rendering. -/
def renderCell : Option (Option PyNum) → String
  | none => ""
  | some none => "None"
  | some (some q) => floatStr q

/-- One output row minus the observation counter. -/
def renderCore (r : Row) (vars cats : List String) : List String :=
  r.state :: r.date ::
    (requestPairs vars cats).map (fun p => renderCell (dictGet? r.cells (mkKey p.1 p.2)))

/-- One output row (`[str(i), row['State'], row['Date'], *cells]`). -/
def renderRow (n : Nat) (r : Row) (vars cats : List String) : List String :=
  Nat.repr n :: renderCore r vars cats

/-- `combine_data` on the already-globbed list of files: `none` models the
"No data was processed successfully" path where nothing is written; an
uncaught exception from the sort propagates. -/
def combineData (files : List (List String)) (vars cats : List String) :
    Except PyErr (Option (List (List String))) := do
  let ad := allData files vars cats
  if ad.isEmpty then pure none
  else do
    let recs ← combineSorted ad
    pure (some (headerParts vars cats ::
      (enumFrom 1 recs).map (fun p => renderRow p.1 p.2 vars cats)))

/-! ### `log_transform_fdic_data` (the log normalizer) -/

/-- The minimum strictly-positive entry of a column (`data[data > 0].min()`,
`none` when `NaN`). -/
def minPositive (col : List ℚ) : Option ℚ :=
  match col.filter (fun x => decide (0 < x)) with
  | [] => none
  | x :: xs => some (xs.foldl min x)

/-- `data.replace(0, min_positive * 0.01)` when a positive minimum exists. -/
def substituteZeros (col : List ℚ) : List ℚ :=
  match minPositive col with
  | some m => col.map (fun x => if x = 0 then m * (1 / 100) else x)
  | none => col

/-- `sign(x) * log(1 + |x|)` (`np.sign(x) * np.log1p(np.abs(x))`). -/
noncomputable def logTransformValue (x : ℝ) : ℝ :=
  Real.sign x * Real.log (1 + |x|)

/-- The whole per-column transform: zero substitution, then the
sign-preserving log. -/
noncomputable def transformColumn (col : List ℚ) : List ℝ :=
  (substituteZeros col).map (fun q => logTransformValue (q : ℝ))

/-! ### Synthetic export files used as concrete test inputs -/

/-- A three-jurisdiction export with one metric row of nine values. -/
def sample3 : List String :=
  ["FDIC State Tables", "", "",
   "\"Alaska\"",
   "March 31, 2019\",,,\"x",
   "",
   "\"Hawaii\"",
   "", "",
   "\"Idaho\"",
   "\"Total Deposits\",\"10\",\"1\",\"2\",\"20\",\"3\",\"4\",\"30\",\"5\",\"6\""]

/-- A single-jurisdiction export for Alaska, 03/31/2019, Total Deposits 10. -/
def fileA : List String :=
  ["FDIC State Tables", "", "",
   "\"Alaska\"",
   "March 31, 2019\",,,\"x",
   "", "", "", "", "",
   "\"Total Deposits\",\"10\",\"1\",\"2\""]

/-- Same jurisdiction and period as `fileA` but Total Deposits 77. -/
def fileB : List String :=
  ["FDIC State Tables", "", "",
   "\"Alaska\"",
   "March 31, 2019\",,,\"x",
   "", "", "", "", "",
   "\"Total Deposits\",\"77\",\"8\",\"9\""]

/-- Same jurisdiction as `fileA` but with an unconvertible date line, so the
raw text "Banana" survives as the period. -/
def fileC : List String :=
  ["FDIC State Tables", "", "",
   "\"Alaska\"",
   "Banana\",,,\"x",
   "", "", "", "", "",
   "\"Total Deposits\",\"55\",\"8\",\"9\""]

/-- A structurally broken export (no line index 4). -/
def shortFile : List String := ["x"]

/-- The metric row of `sample3`. -/
def sample3MetricLine : String :=
  "\"Total Deposits\",\"10\",\"1\",\"2\",\"20\",\"3\",\"4\",\"30\",\"5\",\"6\""

/-- The nine parsed values of `sample3MetricLine`. -/
def sample3Vals : List PyNum :=
  [⟨10, 0⟩, ⟨1, 0⟩, ⟨2, 0⟩, ⟨20, 0⟩, ⟨3, 0⟩, ⟨4, 0⟩, ⟨30, 0⟩, ⟨5, 0⟩, ⟨6, 0⟩]

/-- The three records `process_file` produces from `sample3` with all three
categories requested. -/
def sample3Rows : List Row :=
  [⟨"Alaska", "03/31/2019",
     [(mkKey "Total Deposits" "All Institutions", some ⟨10, 0⟩),
      (mkKey "Total Deposits" "Assets Less Than $1 Billion", some ⟨1, 0⟩),
      (mkKey "Total Deposits" "Assets Greater Than $1 Billion", some ⟨2, 0⟩)]⟩,
   ⟨"Hawaii", "03/31/2019",
     [(mkKey "Total Deposits" "All Institutions", some ⟨20, 0⟩),
      (mkKey "Total Deposits" "Assets Less Than $1 Billion", some ⟨3, 0⟩),
      (mkKey "Total Deposits" "Assets Greater Than $1 Billion", some ⟨4, 0⟩)]⟩,
   ⟨"Idaho", "03/31/2019",
     [(mkKey "Total Deposits" "All Institutions", some ⟨30, 0⟩),
      (mkKey "Total Deposits" "Assets Less Than $1 Billion", some ⟨5, 0⟩),
      (mkKey "Total Deposits" "Assets Greater Than $1 Billion", some ⟨6, 0⟩)]⟩]

/-- The single record `process_file` produces from `fileA` when the requested
metric "Net Income" occurs nowhere in the file. -/
def c6row : Row := ⟨"Alaska", "03/31/2019", [(mkKey "Net Income" "All Institutions", none)]⟩

/-- The records parsed from `fileA` and `fileB` respectively. -/
def rowTD10 : Row :=
  ⟨"Alaska", "03/31/2019", [(mkKey "Total Deposits" "All Institutions", some ⟨10, 0⟩)]⟩

def rowTD77 : Row :=
  ⟨"Alaska", "03/31/2019", [(mkKey "Total Deposits" "All Institutions", some ⟨77, 0⟩)]⟩

/-- The combined table written for the batch `[fileA, fileB]`. -/
def dupTable : List (List String) :=
  [["Obs", "State", "Date", "Total Deposits - All Institutions"],
   ["1", "Alaska", "03/31/2019", "10.0"],
   ["2", "Alaska", "03/31/2019", "77.0"]]

/-- The combined table written for `[fileA]` with the absent metric
"Net Income" requested. -/
def c4table : List (List String) :=
  [["Obs", "State", "Date", "Net Income - All Institutions"],
   ["1", "Alaska", "03/31/2019", "None"]]

/-! ### Order-theoretic view of the combiner's sort -/

/-- The `(year, month, day)` triple `sort_key` parses from a row's period,
`none` exactly when the `(state, raw)` fallback key would be used or the
`int()` conversions would raise. -/
def dateTuple (s : String) : Option (Int × Int × Int) :=
  ((sortKeyParts s).toOption).join

/-- Lexicographic `≤` on `(year, month, day)` triples. -/
def tripLE (a b : Int × Int × Int) : Prop :=
  a.1 < b.1 ∨ (a.1 = b.1 ∧ (a.2.1 < b.2.1 ∨ (a.2.1 = b.2.1 ∧ a.2.2 ≤ b.2.2)))

/-- "Jurisdiction ascending, then period ascending chronologically": the
intended order of the combined table's rows. -/
def rowLE (a b : Row) : Prop :=
  pyStrLtb a.state b.state = true ∨
    (a.state = b.state ∧ ∃ ta tb, dateTuple a.date = some ta ∧ dateTuple b.date = some tb ∧
      tripLE ta tb)

/-- "Not strictly greater" on decorated keys: the sortedness invariant of the
insertion sort. -/
def kle (p q : SKey × Row) : Prop := dkLtb q.1 p.1 = false

/-- A decorated pair whose key is the chronological key of its own row. -/
def keyMatches (p : SKey × Row) : Prop :=
  ∃ y m d, p.1 = SKey.dated p.2.state y m d ∧ dateTuple p.2.date = some (y, m, d)

def isDated (k : SKey) : Prop := ∃ s y m d, k = SKey.dated s y m d

/-! ## Infrastructure lemmas -/

theorem exMapM_length (f : α → Except PyErr β) (l : List α) (r : List β)
    (h : exMapM f l = .ok r) : r.length = l.length := by
  induction l generalizing r with
  | nil => simp [exMapM] at h; simp [← h]
  | cons x xs ih =>
      rw [exMapM] at h
      cases hx : f x with
      | error e => rw [hx] at h; cases h
      | ok y =>
          rw [hx] at h
          cases hxs : exMapM f xs with
          | error e => rw [hxs] at h; cases h
          | ok ys =>
              rw [hxs] at h
              cases h
              simp [ih ys hxs]

theorem exMapM_get? (f : α → Except PyErr β) (l : List α) (r : List β)
    (h : exMapM f l = .ok r) (i : Nat) (a : α) (ha : l.get? i = some a) :
    ∃ b, r.get? i = some b ∧ f a = .ok b := by
  induction l generalizing r i with
  | nil => simp at ha
  | cons x xs ih =>
      rw [exMapM] at h
      cases hx : f x with
      | error e => rw [hx] at h; cases h
      | ok y =>
          rw [hx] at h
          cases hxs : exMapM f xs with
          | error e => rw [hxs] at h; cases h
          | ok ys =>
              rw [hxs] at h
              cases h
              cases i with
              | zero => cases ha; exact ⟨y, rfl, hx⟩
              | succ j => exact ih ys hxs j ha

theorem exMapM_ok_of_forall (f : α → Except PyErr β) (g : α → β) (l : List α)
    (h : ∀ x ∈ l, f x = .ok (g x)) : exMapM f l = .ok (l.map g) := by
  induction l with
  | nil => rfl
  | cons x xs ih =>
      rw [exMapM, h x (List.mem_cons_self x xs), ih (fun y hy => h y (List.mem_cons_of_mem _ hy))]
      rfl

theorem enumFrom_length (n : Nat) (l : List α) : (enumFrom n l).length = l.length := by
  induction l generalizing n with
  | nil => rfl
  | cons x xs ih => simp [enumFrom, ih]

theorem enumFrom_get? (n i : Nat) (l : List α) :
    (enumFrom n l).get? i = (l.get? i).map (fun a => (n + i, a)) := by
  induction l generalizing n i with
  | nil => simp [enumFrom]
  | cons x xs ih =>
      cases i with
      | zero => simp [enumFrom]
      | succ j =>
          show (enumFrom (n + 1) xs).get? j = (xs.get? j).map (fun a => (n + (j + 1), a))
          rw [ih (n + 1) j]
          have harith : n + 1 + j = n + (j + 1) := by omega
          simp [harith]

theorem enumFrom_mem_map (l : List α) (g : α → β) (n : Nat) :
    (enumFrom n l).map (fun p => g p.2) = l.map g := by
  induction l generalizing n with
  | nil => rfl
  | cons x xs ih => simp [enumFrom, ih]

theorem enumFrom_map_snd (n : Nat) (l : List α) :
    (enumFrom n l).map (fun p => p.2) = l := by
  induction l generalizing n with
  | nil => rfl
  | cons x xs ih => simp [enumFrom, ih]

theorem dictGet?_dictSet_self (d : List (String × α)) (k : String) (v : α) :
    dictGet? (dictSet d k v) k = some v := by
  induction d with
  | nil => simp [dictSet, dictGet?]
  | cons p rest ih =>
      obtain ⟨pk, pv⟩ := p
      by_cases hp : pk = k
      · subst hp
        simp [dictSet, dictGet?]
      · simp [dictSet, dictGet?, hp, ih]

theorem dictGet?_dictSet_ne (d : List (String × α)) (k q : String) (v : α)
    (h : q ≠ k) : dictGet? (dictSet d k v) q = dictGet? d q := by
  induction d with
  | nil =>
      have hkq : ¬(k = q) := fun hh => h hh.symm
      simp [dictSet, dictGet?, hkq]
  | cons p rest ih =>
      obtain ⟨pk, pv⟩ := p
      by_cases hp : pk = k
      · subst hp
        have hkq : ¬(pk = q) := fun hh => h hh.symm
        simp [dictSet, dictGet?, hkq]
      · simp [dictSet, dictGet?, hp, ih]

theorem mkKey_right_inj (v c1 c2 : String) (h : c1 ≠ c2) : mkKey v c1 ≠ mkKey v c2 := by
  intro hk
  apply h
  have hd := congrArg String.data hk
  simp only [mkKey, String.data_append] at hd
  have := List.append_cancel_left hd
  exact String.ext this

theorem pyGetE_ok_of_lt (l : List α) (i : Nat) (h : i < l.length) :
    ∃ a, pyGetE l i = .ok a ∧ l.get? i = some a := by
  induction l generalizing i with
  | nil => simp at h
  | cons x xs ih =>
      cases i with
      | zero => exact ⟨x, rfl, rfl⟩
      | succ j => exact ih j (by simpa using h)

theorem extractStates_length (lines : List String) (sts : List String)
    (h : extractStates lines = .ok sts) : sts.length ≤ 3 := by
  rw [extractStates] at h
  cases h3 : pyGetE lines 3 with
  | error e => rw [h3] at h; cases h
  | ok l3 =>
      rw [h3] at h
      cases h6 : pyGetE lines 6 with
      | error e => rw [h6] at h; cases h
      | ok l6 =>
          rw [h6] at h
          cases h9 : pyGetE lines 9 with
          | error e => rw [h9] at h; cases h
          | ok l9 =>
              rw [h9] at h
              cases h
              calc (([l3, l6, l9].map (fun l => stripQuotes (strTrim l))).filter acceptState).length
                  ≤ ([l3, l6, l9].map (fun l => stripQuotes (strTrim l))).length :=
                    List.length_filter_le _ _
                _ = 3 := by simp

theorem exBind_ok (x : Except PyErr α) (f : α → Except PyErr β) (b : β)
    (h : x >>= f = .ok b) : ∃ a, x = .ok a ∧ f a = .ok b := by
  cases x with
  | error e => simp [Bind.bind, Except.bind] at h
  | ok a => exact ⟨a, rfl, by simpa [Bind.bind, Except.bind] using h⟩

/-- Inversion of a successful `processFile` run into its three stages. -/
theorem processFile_ok (lines : List String) (vars cats : List String) (rows : List Row)
    (h : processFile lines vars cats = .ok rows) :
    ∃ date sts, extractDate lines = .ok date ∧ extractStates lines = .ok sts ∧
      exMapM (fun p => processState lines vars cats date p.1 p.2) (enumFrom 0 sts) = .ok rows := by
  rw [processFile] at h
  obtain ⟨date, hdate, h⟩ := exBind_ok _ _ _ h
  obtain ⟨sts, hsts, h⟩ := exBind_ok _ _ _ h
  exact ⟨date, sts, hdate, hsts, h⟩

/-- For a single requested metric whose row was found and parsed, the cells
written for jurisdiction position `i < 3` are exactly the flat slots
`3*i`, `3*i+1`, `3*i+2` in the fixed category order. -/
theorem processState_single (lines : List String) (v varLine date st : String)
    (vals : List PyNum) (i : Nat) (hi : i < 3)
    (hfind : lines.find? (fun l => strContains l v) = some varLine)
    (hvals : parseRowValues varLine = .ok vals) :
    processState lines [v] categoriesAll date i st =
      .ok ⟨st, date,
        [(mkKey v "All Institutions", vals.get? (3 * i)),
         (mkKey v "Assets Less Than $1 Billion", vals.get? (3 * i + 1)),
         (mkKey v "Assets Greater Than $1 Billion", vals.get? (3 * i + 2))]⟩ := by
  have h01 := mkKey_right_inj v "All Institutions" "Assets Less Than $1 Billion" (by decide)
  have h02 := mkKey_right_inj v "All Institutions" "Assets Greater Than $1 Billion" (by decide)
  have h12 := mkKey_right_inj v "Assets Less Than $1 Billion" "Assets Greater Than $1 Billion" (by decide)
  interval_cases i <;>
    simp [processState, exFoldlM, hfind, hvals, catIndices?, pyGetE, categoriesAll,
      dictSet, Bind.bind, Except.bind, pure, Except.pure, h01, h02, h12]

/-! ## C1 — flat index `3*i + c` for jurisdiction `i`, category `c` -/

/-- C1: with all three institution categories requested, the value stored for
jurisdiction position `i` and category position `c` (in the fixed order
All, Under-$1B, Over-$1B) is element `3*i + c` of the metric row's parsed
value sequence (`none` when that index is beyond the parsed values). -/
theorem parser_flat_index (lines : List String) (v varLine : String) (vals : List PyNum)
    (rows : List Row) (i c : Nat)
    (hfind : lines.find? (fun l => strContains l v) = some varLine)
    (hvals : parseRowValues varLine = .ok vals)
    (hrun : processFile lines [v] categoriesAll = .ok rows)
    (hi : i < rows.length) (hc : c < categoriesAll.length) :
    dictGet? (rows.get ⟨i, hi⟩).cells (mkKey v (categoriesAll.get ⟨c, hc⟩)) =
      some (vals.get? (3 * i + c)) := by
  obtain ⟨date, sts, hdate, hsts, hmap⟩ := processFile_ok _ _ _ _ hrun
  have hlen : rows.length = sts.length := by
    rw [exMapM_length _ _ _ hmap, enumFrom_length]
  have hsts3 := extractStates_length lines sts hsts
  have hi3 : i < 3 := by omega
  have hilt : i < sts.length := by omega
  have hst : sts.get? i = some (sts.get ⟨i, hilt⟩) := List.get?_eq_get hilt
  have henum : (enumFrom 0 sts).get? i = some (i, sts.get ⟨i, hilt⟩) := by
    rw [enumFrom_get?, hst]
    simp
  obtain ⟨row, hrow, hps⟩ := exMapM_get? _ _ _ hmap i _ henum
  rw [processState_single lines v varLine date (sts.get ⟨i, hilt⟩) vals i hi3 hfind hvals] at hps
  have hgetrow : rows.get ⟨i, hi⟩ = row := by
    have h1 : rows.get? i = some (rows.get ⟨i, hi⟩) := List.get?_eq_get hi
    rw [hrow] at h1
    exact (Option.some.injEq _ _ ▸ h1).symm
  rw [hgetrow]
  cases hps
  have h01 := mkKey_right_inj v "All Institutions" "Assets Less Than $1 Billion" (by decide)
  have h02 := mkKey_right_inj v "All Institutions" "Assets Greater Than $1 Billion" (by decide)
  have h12 := mkKey_right_inj v "Assets Less Than $1 Billion" "Assets Greater Than $1 Billion" (by decide)
  have hc3 : c < 3 := by simpa [categoriesAll] using hc
  interval_cases c <;>
    simp [dictGet?, categoriesAll, h01, h02, h12]

/-- C1 witness: the spec's round-trip example — three jurisdiction blocks and
the nine-value row 10,1,2,20,3,4,30,5,6; jurisdiction position 1 (Hawaii),
category 0 (All Institutions) receives the value at flat index 3·1+0 = 3,
namely 20. -/
theorem parser_flat_index_check :
    processFile sample3 ["Total Deposits"] categoriesAll = .ok sample3Rows ∧
    dictGet? (sample3Rows.get ⟨1, by decide⟩).cells (mkKey "Total Deposits" "All Institutions") =
      some (some ⟨20, 0⟩) :=
  ⟨by decide,
   parser_flat_index sample3 "Total Deposits" sample3MetricLine sample3Vals sample3Rows 1 0
     (by decide) (by decide) (by decide) (by decide) (by decide)⟩

/-! ## C5 — jurisdiction candidate filter -/

/-- C5 (counterexample): "March Valley" is non-empty, does not contain
"National" and is not itself a month name, so the claim accepts it; the code
rejects it because it merely contains the month name "March". -/
theorem jurisdiction_filter_cx :
    specAcceptState "March Valley" = true ∧ acceptState "March Valley" = false := by
  decide

/-- C5 (amended): a candidate is accepted iff it is non-empty, does not
contain "National", and contains no long month name as a substring. -/
theorem jurisdiction_filter_iff (s : String) :
    acceptState s = true ↔
      (s ≠ "" ∧ strContains s "National" = false ∧ ∀ m ∈ monthNames, strContains s m = false) := by
  simp [acceptState, List.any_eq_true, and_assoc]

/-- C5 witness: "Alaska" satisfies all three conditions and is accepted. -/
theorem jurisdiction_filter_iff_check : acceptState "Alaska" = true :=
  (jurisdiction_filter_iff "Alaska").mpr ⟨by decide, by decide, by decide⟩

/-! ## C6 — a metric absent from every line yields nulls, without raising -/

theorem foldl_dictSet_none_mem (v : String) (cats : List String)
    (init : List (String × Option PyNum)) (cat : String)
    (h : cat ∈ cats ∨ dictGet? init (mkKey v cat) = some none) :
    dictGet? (cats.foldl (fun a c => dictSet a (mkKey v c) none) init) (mkKey v cat) =
      some none := by
  induction cats generalizing init with
  | nil =>
      rcases h with h | h
      · simp at h
      · simpa using h
  | cons c cs ih =>
      apply ih
      rcases h with h | h
      · rcases List.mem_cons.mp h with rfl | h'
        · right
          exact dictGet?_dictSet_self _ _ _
        · left
          exact h'
      · by_cases hkey : mkKey v cat = mkKey v c
        · right
          rw [hkey]
          exact dictGet?_dictSet_self _ _ _
        · right
          rw [dictGet?_dictSet_ne _ _ _ _ hkey]
          exact h

/-- C6: if the requested metric occurs verbatim in no line of a structurally
complete file, the parse succeeds and every (jurisdiction, category) cell of
that metric holds Python `None`. -/
theorem parser_missing_metric (lines : List String) (cats : List String) (v : String)
    (hlen : 10 ≤ lines.length)
    (habs : ∀ l ∈ lines, strContains l v = false) :
    ∃ rows, processFile lines [v] cats = .ok rows ∧
      ∀ r ∈ rows, ∀ cat ∈ cats, dictGet? r.cells (mkKey v cat) = some none := by
  obtain ⟨l4, h4, -⟩ := pyGetE_ok_of_lt lines 4 (by omega)
  obtain ⟨l3, h3, -⟩ := pyGetE_ok_of_lt lines 3 (by omega)
  obtain ⟨l6, h6, -⟩ := pyGetE_ok_of_lt lines 6 (by omega)
  obtain ⟨l9, h9, -⟩ := pyGetE_ok_of_lt lines 9 (by omega)
  have hdate : extractDate lines =
      .ok (convert_date (strTrim ((charSplit '\n' (strBefore qcomma l4)).getLastD ""))) := by
    rw [extractDate, h4]
    simp [Bind.bind, Except.bind, pure, Except.pure]
  have hsts : extractStates lines =
      .ok (([l3, l6, l9].map (fun l => stripQuotes (strTrim l))).filter acceptState) := by
    rw [extractStates, h3]
    simp [h6, h9, Bind.bind, Except.bind, pure, Except.pure]
  set d := convert_date (strTrim ((charSplit '\n' (strBefore qcomma l4)).getLastD "")) with hd
  set sts := ([l3, l6, l9].map (fun l => stripQuotes (strTrim l))).filter acceptState with hsts'
  have hfind : lines.find? (fun l => strContains l v) = none := by
    rw [List.find?_eq_none]
    intro l hl
    simp [habs l hl]
  have hps : ∀ i st, processState lines [v] cats d i st =
      .ok ⟨st, d, cats.foldl (fun a cat => dictSet a (mkKey v cat) none) []⟩ := by
    intro i st
    simp [processState, exFoldlM, hfind, Bind.bind, Except.bind, pure, Except.pure]
  have hmap : exMapM (fun p => processState lines [v] cats d p.1 p.2) (enumFrom 0 sts) =
      .ok ((enumFrom 0 sts).map
        (fun p => ⟨p.2, d, cats.foldl (fun a cat => dictSet a (mkKey v cat) none) []⟩)) :=
    exMapM_ok_of_forall _ _ _ (fun p _ => hps p.1 p.2)
  refine ⟨(enumFrom 0 sts).map
      (fun p => ⟨p.2, d, cats.foldl (fun a cat => dictSet a (mkKey v cat) none) []⟩), ?_, ?_⟩
  · rw [processFile, hdate]
    simp only [Bind.bind, Except.bind]
    rw [hsts]
    exact hmap
  · intro r hr cat hcat
    rw [List.mem_map] at hr
    obtain ⟨p, -, hp⟩ := hr
    rw [← hp]
    exact foldl_dictSet_none_mem v cats [] cat (Or.inl hcat)

/-- C6 witness: requesting "Net Income" against `fileA` (which never mentions
it) parses to a single record whose only cell is `None`. -/
theorem parser_missing_metric_check :
    dictGet? c6row.cells (mkKey "Net Income" "All Institutions") = some none := by
  obtain ⟨rows, hok, hnull⟩ :=
    parser_missing_metric fileA ["All Institutions"] "Net Income" (by decide) (by decide)
  have hconc : processFile fileA ["Net Income"] ["All Institutions"] = .ok [c6row] := by decide
  rw [hconc] at hok
  have hrows : rows = [c6row] := (Except.ok.inj hok).symm
  exact hnull c6row (by rw [hrows]; exact List.mem_singleton_self _) "All Institutions" (by simp)

/-! ## C7 — per-file failure isolation -/

theorem allData_foldl_acc (files : List (List String)) (vars cats : List String)
    (acc : List Row) :
    files.foldl (fun a f => a ++ ((processFile f vars cats).toOption.getD [])) acc =
      acc ++ allData files vars cats := by
  induction files generalizing acc with
  | nil => simp [allData]
  | cons f fs ih =>
      rw [allData, List.foldl_cons, List.foldl_cons, ih, ih ([] ++ _)]
      simp

/-- C7: a file whose parse raises contributes nothing; removing it from the
batch leaves the combined output unchanged, so one malformed file never
aborts a run nor disturbs the other files' records. -/
theorem parser_failure_isolation (l1 l2 : List (List String)) (bad : List String)
    (vars cats : List String) (e : PyErr)
    (hbad : processFile bad vars cats = .error e) :
    combineData (l1 ++ bad :: l2) vars cats = combineData (l1 ++ l2) vars cats := by
  have had : allData (l1 ++ bad :: l2) vars cats = allData (l1 ++ l2) vars cats := by
    rw [allData, allData, List.foldl_append, List.foldl_append, List.foldl_cons, hbad]
    simp [Except.toOption]
  simp only [combineData, had]

/-- C7 witness: inserting the unreadable `shortFile` (its parse raises
`IndexError` at line index 4) into a batch leaves the output unchanged. -/
theorem parser_failure_isolation_check :
    processFile shortFile ["Total Deposits"] ["All Institutions"] = .error .indexError ∧
    combineData [fileA, shortFile] ["Total Deposits"] ["All Institutions"] =
      combineData [fileA] ["Total Deposits"] ["All Institutions"] :=
  ⟨by decide,
   parser_failure_isolation [fileA] [] shortFile ["Total Deposits"] ["All Institutions"]
     .indexError (by decide)⟩

/-! ## The code-point order on strings is a strict total order -/

theorem char_eq_of_toNat_eq (a b : Char) (h : a.toNat = b.toNat) : a = b := by
  have h2 : Char.ofNat a.toNat = Char.ofNat b.toNat := by rw [h]
  rwa [Char.ofNat_toNat, Char.ofNat_toNat] at h2

theorem listLtb_irrefl (l : List Char) : listLtb l l = false := by
  induction l with
  | nil => rfl
  | cons a as ih => simp [listLtb, ih]

theorem listLtb_asymm (a b : List Char) (h : listLtb a b = true) : listLtb b a = false := by
  induction a generalizing b with
  | nil =>
      cases b with
      | nil => simp [listLtb] at h
      | cons y ys => rfl
  | cons x xs ih =>
      cases b with
      | nil => simp [listLtb] at h
      | cons y ys =>
          rw [listLtb] at h
          rw [listLtb]
          by_cases h1 : x.toNat < y.toNat
          · rw [if_neg (by omega), if_pos h1]
          · rw [if_neg h1] at h
            by_cases h2 : y.toNat < x.toNat
            · rw [if_pos h2] at h
              cases h
            · rw [if_neg h2] at h
              rw [if_neg h2, if_neg h1]
              exact ih ys h

theorem listLtb_trans (a b c : List Char) (h1 : listLtb a b = true)
    (h2 : listLtb b c = true) : listLtb a c = true := by
  induction a generalizing b c with
  | nil =>
      cases c with
      | nil =>
          cases b with
          | nil => simp [listLtb] at h2
          | cons y ys => simp [listLtb] at h2
      | cons z zs => rfl
  | cons x xs ih =>
      cases b with
      | nil => simp [listLtb] at h1
      | cons y ys =>
          cases c with
          | nil => simp [listLtb] at h2
          | cons z zs =>
              rw [listLtb] at h1 h2
              rw [listLtb]
              by_cases hxy : x.toNat < y.toNat
              · rw [if_pos hxy] at h1
                by_cases hyz : y.toNat < z.toNat
                · rw [if_pos (by omega : x.toNat < z.toNat)]
                · rw [if_neg hyz] at h2
                  by_cases hzy : z.toNat < y.toNat
                  · rw [if_pos hzy] at h2
                    cases h2
                  · rw [if_neg hzy] at h2
                    rw [if_pos (by omega : x.toNat < z.toNat)]
              · rw [if_neg hxy] at h1
                by_cases hyx : y.toNat < x.toNat
                · rw [if_pos hyx] at h1
                  cases h1
                · rw [if_neg hyx] at h1
                  by_cases hyz : y.toNat < z.toNat
                  · rw [if_pos (by omega : x.toNat < z.toNat)]
                  · rw [if_neg hyz] at h2
                    by_cases hzy : z.toNat < y.toNat
                    · rw [if_pos hzy] at h2
                      cases h2
                    · rw [if_neg hzy] at h2
                      rw [if_neg (by omega : ¬x.toNat < z.toNat),
                        if_neg (by omega : ¬z.toNat < x.toNat)]
                      exact ih ys zs h1 h2

theorem listLtb_connex (a b : List Char) (h : listLtb a b = false) :
    listLtb b a = true ∨ a = b := by
  induction a generalizing b with
  | nil =>
      cases b with
      | nil => exact Or.inr rfl
      | cons y ys => simp [listLtb] at h
  | cons x xs ih =>
      cases b with
      | nil => exact Or.inl rfl
      | cons y ys =>
          rw [listLtb] at h
          by_cases hxy : x.toNat < y.toNat
          · rw [if_pos hxy] at h
            cases h
          · rw [if_neg hxy] at h
            by_cases hyx : y.toNat < x.toNat
            · left
              rw [listLtb, if_pos hyx]
            · rw [if_neg hyx] at h
              have hx : x = y := char_eq_of_toNat_eq x y (by omega)
              rcases ih ys h with h' | h'
              · left
                rw [listLtb, if_neg hyx, if_neg hxy]
                exact h'
              · right
                rw [hx, h']

theorem pyStrLtb_irrefl (s : String) : pyStrLtb s s = false := listLtb_irrefl s.data

theorem pyStrLtb_asymm (a b : String) (h : pyStrLtb a b = true) : pyStrLtb b a = false :=
  listLtb_asymm a.data b.data h

theorem pyStrLtb_trans (a b c : String) (h1 : pyStrLtb a b = true)
    (h2 : pyStrLtb b c = true) : pyStrLtb a c = true :=
  listLtb_trans a.data b.data c.data h1 h2

theorem pyStrLtb_connex (a b : String) (h : pyStrLtb a b = false) :
    pyStrLtb b a = true ∨ a = b := by
  rcases listLtb_connex a.data b.data h with h' | h'
  · exact Or.inl h'
  · exact Or.inr (String.ext h')

/-! ## The key comparison on chronological keys is a strict total order -/

theorem dkLtb_dated_iff (s1 s2 : String) (y1 m1 d1 y2 m2 d2 : Int) :
    dkLtb (.dated s1 y1 m1 d1) (.dated s2 y2 m2 d2) = true ↔
      (pyStrLtb s1 s2 = true ∨
        (s1 = s2 ∧ (y1 < y2 ∨ (y1 = y2 ∧ (m1 < m2 ∨ (m1 = m2 ∧ d1 < d2)))))) := by
  simp [dkLtb]

theorem dkLtb_irrefl (k : SKey) : dkLtb k k = false := by
  cases k with
  | dated s y m d => simp [dkLtb, pyStrLtb_irrefl]
  | raw s r => rfl

theorem dkLtb_asymm (p q : SKey) (h : dkLtb p q = true) : dkLtb q p = false := by
  cases p with
  | raw s r => cases q <;> simp [dkLtb] at h
  | dated s1 y1 m1 d1 =>
      cases q with
      | raw s2 r2 => simp [dkLtb] at h
      | dated s2 y2 m2 d2 =>
          rw [dkLtb_dated_iff] at h
          by_contra hq
          rw [Bool.not_eq_false, dkLtb_dated_iff] at hq
          rcases h with hs | ⟨hse, hr⟩ <;> rcases hq with hs' | ⟨hse', hr'⟩
          · rw [pyStrLtb_asymm _ _ hs] at hs'
            cases hs'
          · rw [hse'] at hs
            rw [pyStrLtb_irrefl] at hs
            cases hs
          · rw [hse] at hs'
            rw [pyStrLtb_irrefl] at hs'
            cases hs'
          · omega

theorem dkLtb_trans (a b c : SKey) (ha : isDated a) (hb : isDated b) (hc : isDated c)
    (h1 : dkLtb a b = true) (h2 : dkLtb b c = true) : dkLtb a c = true := by
  obtain ⟨s1, y1, m1, d1, rfl⟩ := ha
  obtain ⟨s2, y2, m2, d2, rfl⟩ := hb
  obtain ⟨s3, y3, m3, d3, rfl⟩ := hc
  rw [dkLtb_dated_iff] at h1 h2
  rw [dkLtb_dated_iff]
  rcases h1 with hs1 | ⟨he1, hr1⟩ <;> rcases h2 with hs2 | ⟨he2, hr2⟩
  · exact Or.inl (pyStrLtb_trans _ _ _ hs1 hs2)
  · rw [he2] at hs1
    exact Or.inl hs1
  · rw [he1]
    exact Or.inl hs2
  · refine Or.inr ⟨he1.trans he2, ?_⟩
    omega

theorem dkLtb_connex (p q : SKey) (hp : isDated p) (hq : isDated q)
    (h : dkLtb p q = false) : dkLtb q p = true ∨ p = q := by
  obtain ⟨s1, y1, m1, d1, rfl⟩ := hp
  obtain ⟨s2, y2, m2, d2, rfl⟩ := hq
  have hA : ¬(pyStrLtb s1 s2 = true ∨
      (s1 = s2 ∧ (y1 < y2 ∨ (y1 = y2 ∧ (m1 < m2 ∨ (m1 = m2 ∧ d1 < d2)))))) := by
    rw [← dkLtb_dated_iff, h]
    simp
  push_neg at hA
  obtain ⟨hA1, hA2⟩ := hA
  rcases pyStrLtb_connex s1 s2 (by simpa using hA1) with hs | hs
  · left
    rw [dkLtb_dated_iff]
    exact Or.inl hs
  · subst hs
    have hA3 := hA2 rfl
    by_cases hlex : y2 < y1 ∨ (y2 = y1 ∧ (m2 < m1 ∨ (m2 = m1 ∧ d2 < d1)))
    · left
      rw [dkLtb_dated_iff]
      exact Or.inr ⟨rfl, hlex⟩
    · right
      have : y1 = y2 ∧ m1 = m2 ∧ d1 = d2 := by omega
      rw [this.1, this.2.1, this.2.2]

/-! ## The sort pipeline -/

theorem keyF_cases (r : Row) :
    (do pure ((← sortKey r), r) : Except PyErr (SKey × Row)) =
      match sortKey r with
      | .ok k => .ok (k, r)
      | .error e => .error e := by
  cases h : sortKey r <;> simp [h, Bind.bind, Except.bind, pure, Except.pure]

theorem sortKey_dated (r : Row) (y m d : Int) (h : dateTuple r.date = some (y, m, d)) :
    sortKey r = .ok (.dated r.state y m d) := by
  rw [dateTuple] at h
  cases hp : sortKeyParts r.date with
  | error e =>
      rw [hp] at h
      simp [Except.toOption, Option.join] at h
  | ok o =>
      rw [hp] at h
      simp only [Except.toOption] at h
      rw [Option.join_eq_some] at h
      injection h with h2
      subst h2
      simp [sortKey, hp, Bind.bind, Except.bind, pure, Except.pure]

theorem exMapM_keys_snd (ad : List Row) (keyed : List (SKey × Row))
    (h : exMapM (fun r => do pure ((← sortKey r), r)) ad = .ok keyed) :
    keyed.map (fun p => p.2) = ad := by
  induction ad generalizing keyed with
  | nil => cases h; rfl
  | cons r rs ih =>
      rw [exMapM, keyF_cases r] at h
      cases hsk : sortKey r with
      | error e =>
          simp only [hsk] at h
          exact Except.noConfusion h
      | ok k =>
          simp only [hsk] at h
          cases hrest : exMapM (fun r => do pure ((← sortKey r), r)) rs with
          | error e =>
              simp only [hrest] at h
              exact Except.noConfusion h
          | ok ys =>
              simp only [hrest] at h
              cases h
              simp [ih ys hrest]

theorem exMapM_keys_ok (ad : List Row)
    (h : ∀ r ∈ ad, ∃ y m d, dateTuple r.date = some (y, m, d)) :
    ∃ keyed, exMapM (fun r => do pure ((← sortKey r), r)) ad = .ok keyed ∧
      keyed.map (fun p => p.2) = ad ∧ ∀ p ∈ keyed, keyMatches p := by
  induction ad with
  | nil => exact ⟨[], rfl, rfl, by simp⟩
  | cons r rs ih =>
      obtain ⟨y, m, d, hr⟩ := h r (List.mem_cons_self r rs)
      obtain ⟨keyed, hmap, hsnd, hmat⟩ := ih (fun r' hr' => h r' (List.mem_cons_of_mem _ hr'))
      refine ⟨(SKey.dated r.state y m d, r) :: keyed, ?_, ?_, ?_⟩
      · rw [exMapM, keyF_cases r]
        simp only [sortKey_dated r y m d hr, hmap]
      · simp [hsnd]
      · intro p hp
        rcases List.mem_cons.mp hp with rfl | hp'
        · exact ⟨y, m, d, rfl, hr⟩
        · exact hmat p hp'

theorem insertRow_perm (kx : SKey) (x : Row) (l l' : List (SKey × Row))
    (h : insertRow kx x l = .ok l') : l'.Perm ((kx, x) :: l) := by
  induction l generalizing l' with
  | nil =>
      rw [insertRow] at h
      cases h
      exact List.Perm.refl _
  | cons p ps ih =>
      obtain ⟨ky, yv⟩ := p
      rw [insertRow] at h
      cases hk : keyLt ky kx with
      | error e =>
          simp only [hk] at h
          exact Except.noConfusion h
      | ok b =>
          simp only [hk] at h
          cases b with
          | false =>
              cases h
              exact List.Perm.refl _
          | true =>
              obtain ⟨rest, hrest, hp⟩ := exBind_ok _ _ _ h
              have hl' : l' = (ky, yv) :: rest := by
                simpa [pure, Except.pure] using hp.symm
              subst hl'
              exact ((ih rest hrest).cons (ky, yv)).trans (List.Perm.swap (kx, x) (ky, yv) ps)

theorem isortE_perm (l l' : List (SKey × Row)) (h : isortE l = .ok l') : l'.Perm l := by
  induction l generalizing l' with
  | nil =>
      cases h
      exact List.Perm.refl _
  | cons p ps ih =>
      rw [isortE] at h
      obtain ⟨s, hs, hins⟩ := exBind_ok _ _ _ h
      have h1 := insertRow_perm p.1 p.2 s l' hins
      have h2 : ((p.1, p.2) :: s).Perm ((p.1, p.2) :: ps) := (ih s hs).cons _
      exact h1.trans h2

theorem insertRow_dated (kx : SKey) (x : Row) (l : List (SKey × Row))
    (hkx : isDated kx) (hl : ∀ p ∈ l, isDated p.1) (hsort : List.Pairwise kle l) :
    ∃ l', insertRow kx x l = .ok l' ∧ (∀ p ∈ l', p = (kx, x) ∨ p ∈ l) ∧
      List.Pairwise kle l' := by
  induction l with
  | nil => exact ⟨[(kx, x)], rfl, by simp, by simp⟩
  | cons p ps ih =>
      obtain ⟨ky, yv⟩ := p
      have hky : isDated ky := hl (ky, yv) (List.mem_cons_self _ _)
      have hkLt : keyLt ky kx = .ok (dkLtb ky kx) := by
        obtain ⟨s1, y1, m1, d1, rfl⟩ := hky
        obtain ⟨s2, y2, m2, d2, rfl⟩ := hkx
        rfl
      cases hb : dkLtb ky kx with
      | true =>
          obtain ⟨l'', hl'', hmem, hsort''⟩ :=
            ih (fun q hq => hl q (List.mem_cons_of_mem _ hq)) hsort.of_cons
          refine ⟨(ky, yv) :: l'', ?_, ?_, ?_⟩
          · rw [insertRow, hkLt, hb]
            simp [hl'', Bind.bind, Except.bind, pure, Except.pure]
          · intro q hq
            rcases List.mem_cons.mp hq with rfl | hq'
            · exact Or.inr (List.mem_cons_self _ _)
            · rcases hmem q hq' with h' | h'
              · exact Or.inl h'
              · exact Or.inr (List.mem_cons_of_mem _ h')
          · refine List.pairwise_cons.mpr ⟨?_, hsort''⟩
            intro q hq
            rcases hmem q hq with rfl | hq'
            · exact dkLtb_asymm _ _ hb
            · exact (List.pairwise_cons.mp hsort).1 q hq'
      | false =>
          refine ⟨(kx, x) :: (ky, yv) :: ps, ?_, ?_, ?_⟩
          · rw [insertRow, hkLt, hb]
          · intro q hq
            rcases List.mem_cons.mp hq with rfl | hq'
            · exact Or.inl rfl
            · exact Or.inr hq'
          · refine List.pairwise_cons.mpr ⟨?_, hsort⟩
            intro q hq
            rcases List.mem_cons.mp hq with rfl | hq'
            · exact hb
            · have h1 : dkLtb q.1 ky = false := (List.pairwise_cons.mp hsort).1 q hq'
              by_contra hcon
              simp only [kle] at hcon
              rw [Bool.not_eq_false] at hcon
              have hq1 : isDated q.1 := hl q (List.mem_cons_of_mem _ hq')
              rcases dkLtb_connex q.1 ky hq1 hky h1 with h2 | h2
              · have h3 := dkLtb_trans ky q.1 kx hky hq1 hkx h2 hcon
                rw [hb] at h3
                cases h3
              · rw [h2] at hcon
                rw [hb] at hcon
                cases hcon

theorem isortE_dated (l : List (SKey × Row)) (hl : ∀ p ∈ l, isDated p.1) :
    ∃ l', isortE l = .ok l' ∧ (∀ p ∈ l', p ∈ l) ∧ List.Pairwise kle l' := by
  induction l with
  | nil => exact ⟨[], rfl, by simp, List.Pairwise.nil⟩
  | cons p ps ih =>
      obtain ⟨s, hs, hmem, hsort⟩ := ih (fun q hq => hl q (List.mem_cons_of_mem _ hq))
      have hsdated : ∀ q ∈ s, isDated q.1 :=
        fun q hq => hl q (List.mem_cons_of_mem _ (hmem q hq))
      obtain ⟨l', hins, hmem', hsort'⟩ :=
        insertRow_dated p.1 p.2 s (hl p (List.mem_cons_self _ _)) hsdated hsort
      refine ⟨l', ?_, ?_, hsort'⟩
      · rw [isortE]
        simp only [hs, Bind.bind, Except.bind]
        exact hins
      · intro q hq
        rcases hmem' q hq with rfl | hq'
        · exact List.mem_cons_self _ _
        · exact List.mem_cons_of_mem _ (hmem q hq')

theorem combineSorted_ok_perm (ad recs : List Row) (h : combineSorted ad = .ok recs) :
    recs.Perm ad := by
  rw [combineSorted] at h
  obtain ⟨keyed, hk, h⟩ := exBind_ok _ _ _ h
  obtain ⟨sorted, hs, h⟩ := exBind_ok _ _ _ h
  have hrecs : recs = sorted.map (fun p => p.2) := by
    simpa [pure, Except.pure] using h.symm
  subst hrecs
  have hperm := (isortE_perm keyed sorted hs).map (fun p : SKey × Row => p.2)
  rw [exMapM_keys_snd ad keyed hk] at hperm
  exact hperm

theorem combineData_ok_some (files : List (List String)) (vars cats : List String)
    (t : List (List String)) (h : combineData files vars cats = .ok (some t)) :
    ∃ recs, combineSorted (allData files vars cats) = .ok recs ∧
      t = headerParts vars cats ::
        (enumFrom 1 recs).map (fun p => renderRow p.1 p.2 vars cats) := by
  rw [combineData] at h
  by_cases he : (allData files vars cats).isEmpty
  · rw [if_pos he] at h
    simp [pure, Except.pure] at h
  · rw [if_neg he] at h
    obtain ⟨recs, hr, hp⟩ := exBind_ok _ _ _ h
    refine ⟨recs, hr, ?_⟩
    have ht := hp.symm
    simp only [pure, Except.pure, Except.ok.injEq, Option.some.injEq] at ht
    exact ht

theorem renderRow_length (n : Nat) (r : Row) (vars cats : List String) :
    (renderRow n r vars cats).length = (headerParts vars cats).length := by
  simp [renderRow, renderCore, headerParts]

/-! ## C2 — duplicates across files are not merged -/

/-- C2 (counterexample): `fileA` and `fileB` cover the same (jurisdiction,
period) yet the combined table has two data rows for it, and the value from
the earlier file (10.0) is still present — no last-write-wins resolution. -/
theorem combiner_dedup_cx :
    combineData [fileA, fileB] ["Total Deposits"] ["All Institutions"] =
      .ok (some dupTable) := by
  decide

/-- C2 (amended): the combined table has exactly one data row per parsed
record — the data rows (minus the counter column) are a permutation of the
renderings of all parsed records, so duplicate (jurisdiction, period) keys
from different files all appear, none merged. -/
theorem combiner_no_dedup (files : List (List String)) (vars cats : List String)
    (t : List (List String)) (h : combineData files vars cats = .ok (some t)) :
    ((t.drop 1).map (fun r => r.drop 1)).Perm
      ((allData files vars cats).map (fun r => renderCore r vars cats)) := by
  obtain ⟨recs, hsort, ht⟩ := combineData_ok_some files vars cats t h
  have hperm := combineSorted_ok_perm _ _ hsort
  subst ht
  show (((enumFrom 1 recs).map (fun p => renderRow p.1 p.2 vars cats)).map
      (fun r => r.drop 1)).Perm _
  rw [List.map_map]
  have hfun : ((fun r : List String => r.drop 1) ∘
      (fun p : Nat × Row => renderRow p.1 p.2 vars cats)) =
      (fun p : Nat × Row => renderCore p.2 vars cats) := by
    funext p
    simp [renderRow]
  rw [hfun]
  rw [show (fun p : Nat × Row => renderCore p.2 vars cats) =
      (fun r : Row => renderCore r vars cats) ∘ (fun p : Nat × Row => p.2) from rfl]
  rw [← List.map_map, enumFrom_map_snd]
  exact hperm.map _

/-- C2 witness: on the concrete duplicate batch, both records appear as rows. -/
theorem combiner_no_dedup_check :
    ((dupTable.drop 1).map (fun r => r.drop 1)).Perm
      ((allData [fileA, fileB] ["Total Deposits"] ["All Institutions"]).map
        (fun r => renderCore r ["Total Deposits"] ["All Institutions"])) :=
  combiner_no_dedup [fileA, fileB] ["Total Deposits"] ["All Institutions"] dupTable (by decide)

/-! ## C3 — the sort is chronological, but mixing parsed and unparsed
periods of one jurisdiction raises `TypeError` -/

/-- C3 (counterexample): `fileC`'s period "Banana" survives unconverted, its
sort key falls back to `(state, raw string)`, and comparing it against
`fileA`'s parsed `(state, year, month, day)` key raises `TypeError` — the sort
does not complete, the unparsed row does not sort after the parsed rows. -/
theorem combiner_sort_cx :
    combineData [fileA, fileC] ["Total Deposits"] ["All Institutions"] =
      .error .typeError := by
  decide

/-- C3 (amended): when every record's period parses as `MM/DD/YYYY` with
integer fields, the sort completes and is a deterministic order by
jurisdiction ascending, then chronologically by (year, month, day). -/
theorem combiner_sort_chrono (files : List (List String)) (vars cats : List String)
    (hdates : ∀ r ∈ allData files vars cats, ∃ y m d, dateTuple r.date = some (y, m, d)) :
    ∃ recs, combineSorted (allData files vars cats) = .ok recs ∧
      recs.Perm (allData files vars cats) ∧ List.Pairwise rowLE recs := by
  obtain ⟨keyed, hmap, hsnd, hmat⟩ := exMapM_keys_ok (allData files vars cats) hdates
  have hdated : ∀ p ∈ keyed, isDated p.1 := by
    intro p hp
    obtain ⟨y, m, d, hk, -⟩ := hmat p hp
    exact ⟨p.2.state, y, m, d, hk⟩
  obtain ⟨sorted, hsort, hmem, hpair⟩ := isortE_dated keyed hdated
  refine ⟨sorted.map (fun p => p.2), ?_, ?_, ?_⟩
  · rw [combineSorted, hmap]
    simp only [Bind.bind, Except.bind, hsort, pure, Except.pure]
  · have h2 := (isortE_perm keyed sorted hsort).map (fun p : SKey × Row => p.2)
    rw [hsnd] at h2
    exact h2
  · rw [List.pairwise_map]
    refine List.Pairwise.imp_of_mem ?_ hpair
    intro p q hp hq hle
    obtain ⟨y1, m1, d1, hk1, hd1⟩ := hmat p (hmem p hp)
    obtain ⟨y2, m2, d2, hk2, hd2⟩ := hmat q (hmem q hq)
    simp only [kle, hk1, hk2] at hle
    rcases dkLtb_connex _ _ ⟨_, _, _, _, rfl⟩ ⟨_, _, _, _, rfl⟩ hle with hlt | heq
    · rw [dkLtb_dated_iff] at hlt
      rcases hlt with hs | ⟨hse, hr⟩
      · exact Or.inl hs
      · refine Or.inr ⟨hse, (y1, m1, d1), (y2, m2, d2), hd1, hd2, ?_⟩
        simp only [tripLE]
        omega
    · rw [SKey.dated.injEq] at heq
      obtain ⟨hs, hy, hm, hd⟩ := heq
      refine Or.inr ⟨hs.symm, (y1, m1, d1), (y2, m2, d2), hd1, hd2, ?_⟩
      simp only [tripLE]
      omega

/-- C3 witness: a concrete batch whose periods all parse sorts successfully. -/
theorem combiner_sort_chrono_check :
    (combineSorted (allData [fileA, fileB] ["Total Deposits"] ["All Institutions"])).isOk
      = true := by
  have hd : ∀ r ∈ allData [fileA, fileB] ["Total Deposits"] ["All Institutions"],
      ∃ y m d, dateTuple r.date = some (y, m, d) := by
    have had : allData [fileA, fileB] ["Total Deposits"] ["All Institutions"] =
        [rowTD10, rowTD77] := by decide
    intro r hr
    rw [had] at hr
    rcases List.mem_cons.mp hr with rfl | hr'
    · exact ⟨2019, 3, 31, by decide⟩
    · rcases List.mem_cons.mp hr' with rfl | hr''
      · exact ⟨2019, 3, 31, by decide⟩
      · cases hr''
  obtain ⟨recs, hok, -, -⟩ :=
    combiner_sort_chrono [fileA, fileB] ["Total Deposits"] ["All Institutions"] hd
  rw [hok]
  rfl

/-! ## C4 — missing observations render as "None", rows keep header shape -/

/-- C4 (counterexample): the missing "Net Income" observation is written as
the literal text "None", not as the empty string the claim requires. -/
theorem writer_none_cx :
    combineData [fileA] ["Net Income"] ["All Institutions"] = .ok (some c4table) := by
  decide

/-- C4 (amended): every row of the written table has exactly the header's
shape; each data row is the rendering of a record, where a stored `None`
renders as the text "None" (a key never written would render as the empty
string, and a present value as its decimal text). -/
theorem writer_cell_shape (files : List (List String)) (vars cats : List String)
    (t : List (List String)) (h : combineData files vars cats = .ok (some t)) :
    (∀ r ∈ t, r.length = (headerParts vars cats).length) ∧
    (∀ r ∈ t.drop 1, ∃ n rec, r = renderRow n rec vars cats) ∧
    renderCell none = "" ∧ renderCell (some none) = "None" ∧
    (∀ q : PyNum, renderCell (some (some q)) = floatStr q) := by
  obtain ⟨recs, -, ht⟩ := combineData_ok_some files vars cats t h
  subst ht
  refine ⟨?_, ?_, rfl, rfl, fun q => rfl⟩
  · intro r hr
    rcases List.mem_cons.mp hr with rfl | hr'
    · rfl
    · rw [List.mem_map] at hr'
      obtain ⟨p, -, hp⟩ := hr'
      rw [← hp, renderRow_length]
  · intro r hr
    have hr' : r ∈ (enumFrom 1 recs).map (fun p => renderRow p.1 p.2 vars cats) := hr
    rw [List.mem_map] at hr'
    obtain ⟨p, -, hp⟩ := hr'
    exact ⟨p.1, p.2, hp.symm⟩

/-- C4 witness: on the concrete table every row matches the header's shape. -/
theorem writer_cell_shape_check :
    c4table.all
      (fun r => r.length == (headerParts ["Net Income"] ["All Institutions"]).length) = true := by
  have h := writer_cell_shape [fileA] ["Net Income"] ["All Institutions"] c4table (by decide)
  rw [List.all_eq_true]
  intro r hr
  simp only [beq_iff_eq]
  exact h.1 r hr

/-! ## C8 — the sign-preserving log transform -/

/-- C8: `sign(x) * ln(1 + |x|)` maps zero to zero, preserves the sign of
every value, and strictly compresses magnitude (`|result| < |x|` whenever
`|x| > 0`). -/
theorem log_transform_sign (x : ℝ) :
    logTransformValue 0 = 0 ∧
    (0 < x → 0 < logTransformValue x) ∧
    (x < 0 → logTransformValue x < 0) ∧
    (x ≠ 0 → |logTransformValue x| < |x|) := by
  refine ⟨?_, ?_, ?_, ?_⟩
  · simp [logTransformValue]
  · intro hx
    rw [logTransformValue, Real.sign_of_pos hx, one_mul]
    apply Real.log_pos
    rw [abs_of_pos hx]
    linarith
  · intro hx
    rw [logTransformValue, Real.sign_of_neg hx]
    have hlog : 0 < Real.log (1 + |x|) := by
      apply Real.log_pos
      have h0 : 0 < |x| := abs_pos.mpr (ne_of_lt hx)
      linarith
    nlinarith
  · intro hx
    have habs : 0 < |x| := abs_pos.mpr hx
    have hlog1 : Real.log (1 + |x|) < |x| := by
      have h := Real.log_lt_sub_one_of_pos (x := 1 + |x|) (by linarith) (by linarith)
      linarith
    have hlog0 : 0 ≤ Real.log (1 + |x|) := Real.log_nonneg (by linarith)
    rw [logTransformValue, abs_mul]
    have hsign : |Real.sign x| = 1 := by
      rcases lt_or_gt_of_ne hx with h | h
      · rw [Real.sign_of_neg h]
        norm_num
      · rw [Real.sign_of_pos h]
        norm_num
    rw [hsign, one_mul, abs_of_nonneg hlog0]
    exact hlog1

/-- C8 witness: the transform of −2 is negative and of smaller magnitude. -/
theorem log_transform_sign_check :
    ((-2 : ℝ) < 0 ∧ logTransformValue (-2) < 0) ∧
      ((-2 : ℝ) ≠ 0 ∧ |logTransformValue (-2)| < |(-2 : ℝ)|) := by
  have h := log_transform_sign (-2)
  exact ⟨⟨by norm_num, h.2.2.1 (by norm_num)⟩, ⟨by norm_num, h.2.2.2 (by norm_num)⟩⟩

/-! ## C9 — per-column zero substitution before the log transform -/

theorem foldl_min_le_init (a : ℚ) (l : List ℚ) : l.foldl min a ≤ a := by
  induction l generalizing a with
  | nil => simp
  | cons z zs ih =>
      calc (z :: zs).foldl min a = zs.foldl min (min a z) := rfl
        _ ≤ min a z := ih _
        _ ≤ a := min_le_left _ _

theorem foldl_min_le (x : ℚ) (xs : List ℚ) : ∀ y ∈ x :: xs, xs.foldl min x ≤ y := by
  induction xs generalizing x with
  | nil => simp
  | cons z zs ih =>
      intro y hy
      rcases List.mem_cons.mp hy with rfl | hy'
      · calc (z :: zs).foldl min y = zs.foldl min (min y z) := rfl
          _ ≤ min y z := foldl_min_le_init _ _
          _ ≤ y := min_le_left _ _
      · rcases List.mem_cons.mp hy' with rfl | hy''
        · calc (y :: zs).foldl min x = zs.foldl min (min x y) := rfl
            _ ≤ min x y := foldl_min_le_init _ _
            _ ≤ y := min_le_right _ _
        · exact ih (min x z) y (List.mem_cons_of_mem _ hy'')

theorem foldl_min_mem (x : ℚ) (xs : List ℚ) : xs.foldl min x ∈ x :: xs := by
  induction xs generalizing x with
  | nil => simp
  | cons z zs ih =>
      show zs.foldl min (min x z) ∈ x :: z :: zs
      rcases List.mem_cons.mp (ih (min x z)) with h' | h'
      · rw [h']
        rcases min_choice x z with hc | hc
        · rw [hc]
          exact List.mem_cons_self _ _
        · rw [hc]
          exact List.mem_cons_of_mem _ (List.mem_cons_self _ _)
      · exact List.mem_cons_of_mem _ (List.mem_cons_of_mem _ h')

/-- C9: the column's minimum strictly-positive value is computed before any
substitution; when it exists every exact zero becomes 1% of it, when no
positive value exists the column is untouched; the log transform is applied
only after the substitution. -/
theorem log_normalizer_zero_subst (col : List ℚ) :
    (∀ m, minPositive col = some m →
      (m ∈ col ∧ 0 < m ∧ ∀ y ∈ col, 0 < y → m ≤ y) ∧
      substituteZeros col = col.map (fun x => if x = 0 then m * (1 / 100) else x)) ∧
    ((∀ y ∈ col, ¬(0 < y)) → minPositive col = none ∧ substituteZeros col = col) ∧
    transformColumn col = (substituteZeros col).map (fun q => logTransformValue (q : ℝ)) := by
  refine ⟨?_, ?_, rfl⟩
  · intro m hm
    have hsub : substituteZeros col = col.map (fun x => if x = 0 then m * (1 / 100) else x) := by
      rw [substituteZeros, hm]
    refine ⟨?_, hsub⟩
    rw [minPositive] at hm
    cases hf : col.filter (fun x => decide (0 < x)) with
    | nil => rw [hf] at hm; cases hm
    | cons x xs =>
        rw [hf] at hm
        injection hm with hm'
        subst hm'
        have hmem : xs.foldl min x ∈ col.filter (fun x => decide (0 < x)) := by
          rw [hf]
          exact foldl_min_mem x xs
        rw [List.mem_filter] at hmem
        refine ⟨hmem.1, by simpa using hmem.2, ?_⟩
        intro y hy hypos
        have hyf : y ∈ col.filter (fun x => decide (0 < x)) :=
          List.mem_filter.mpr ⟨hy, by simpa using hypos⟩
        rw [hf] at hyf
        exact foldl_min_le x xs y hyf
  · intro hnone
    have hf : col.filter (fun x => decide (0 < x)) = [] := by
      rw [List.filter_eq_nil_iff]
      intro y hy
      simpa using hnone y hy
    constructor
    · rw [minPositive, hf]
    · rw [substituteZeros, minPositive, hf]

/-- C9 witness: in the column `[3, 0, 2]` the positive minimum 2 is found and
the zero is replaced by `2 * 0.01`. -/
theorem log_normalizer_zero_subst_check :
    ((2 : ℚ) ∈ [(3 : ℚ), 0, 2] ∧ (0 : ℚ) < 2 ∧ ∀ y ∈ [(3 : ℚ), 0, 2], 0 < y → 2 ≤ y) ∧
      substituteZeros [3, 0, 2] =
        [(3 : ℚ), 0, 2].map (fun x => if x = 0 then 2 * (1 / 100) else x) := by
  have h := (log_normalizer_zero_subst [3, 0, 2]).1 2 ?_
  · exact h
  · rw [minPositive]
    norm_num [List.filter]

/-! ## C10 — one unquoted body line abandons the whole variable catalog -/

theorem seqContains_single_false (l : List Char) (c : Char)
    (h : seqContains l [c] = false) : ∀ x ∈ l, x ≠ c := by
  induction l with
  | nil => simp
  | cons a as ih =>
      rw [seqContains, Bool.or_eq_false_iff] at h
      intro x hx
      rcases List.mem_cons.mp hx with rfl | hx'
      · intro hxc
        subst hxc
        simp [List.isPrefixOf] at h
      · exact ih h.2 x hx'

theorem charSplit_no_quote (bad : String) (h : strContains bad "\"" = false) :
    charSplit '"' bad = [bad] := by
  rw [charSplit]
  have hdata : bad.data.splitOn '"' = [bad.data] := by
    rw [List.splitOn]
    apply List.splitOnP_eq_single
    intro x hx
    have := seqContains_single_false bad.data '"' h x hx
    simpa using this
  rw [hdata]
  rfl

theorem gavLoop_error_suffix (mid rest : List String) (bad : String) (acc : List String)
    (hmid : ∀ l ∈ mid, pyIsUpper (strTrim l) = false)
    (hbadm : strContains bad "AGGREGATE CONDITION" = false)
    (hbad1 : strTrim bad ≠ "")
    (hbad2 : pyIsUpper (strTrim bad) = false)
    (hbad3 : strContains bad "\"" = false) :
    ∃ e, gavLoop true acc (mid ++ bad :: rest) = .error e := by
  induction mid generalizing acc with
  | nil =>
      rw [List.nil_append, gavLoop]
      rw [if_neg (by simp [hbadm])]
      rw [if_neg (by simp [hbad2])]
      rw [if_pos (by simp [hbad1, hbad2])]
      rw [charSplit_no_quote bad hbad3]
      exact ⟨.indexError, rfl⟩
  | cons l ls ih =>
      have ihx : ∀ acc' : List String, ∃ e, gavLoop true acc' (ls ++ bad :: rest) = .error e :=
        fun acc' => ih acc' (fun l' hl' => hmid l' (List.mem_cons_of_mem _ hl'))
      rw [List.cons_append, gavLoop]
      by_cases hm : strContains l "AGGREGATE CONDITION" = true
      · rw [if_pos hm]
        exact ihx acc
      · have hm' : strContains l "AGGREGATE CONDITION" = false := by
          rwa [Bool.not_eq_true] at hm
        rw [if_neg (by simp [hm'])]
        have hup : pyIsUpper (strTrim l) = false := hmid l (List.mem_cons_self _ _)
        rw [if_neg (by simp [hup])]
        by_cases hv : strTrim l = ""
        · rw [if_neg (by simp [hv])]
          exact ihx acc
        · rw [if_pos (by simp [hv, hup])]
          cases hg : pyGetE (charSplit '"' l) 1 with
          | error e => exact ⟨e, rfl⟩
          | ok f =>
              show ∃ e,
                (if (decide (strTrim f ≠ "") && !acc.contains (strTrim f)) = true then
                    gavLoop true (acc ++ [strTrim f]) (ls ++ bad :: rest)
                  else gavLoop true acc (ls ++ bad :: rest)) = Except.error e
              by_cases hv2 : (decide (strTrim f ≠ "") && !acc.contains (strTrim f)) = true
              · rw [if_pos hv2]
                exact ihx _
              · rw [if_neg hv2]
                exact ihx acc

/-- C10: if the catalog body (after a line containing "AGGREGATE CONDITION"
and before any all-uppercase line) contains a non-empty, non-uppercase line
without a double quote, the whole catalog is abandoned: the function returns
`[]` via its exception handler rather than skipping that line. -/
theorem catalog_abandons (pre mid rest : List String) (marker bad : String)
    (hmk : strContains marker "AGGREGATE CONDITION" = true)
    (hpre : ∀ l ∈ pre, strContains l "AGGREGATE CONDITION" = false)
    (hmid : ∀ l ∈ mid, pyIsUpper (strTrim l) = false)
    (hbadm : strContains bad "AGGREGATE CONDITION" = false)
    (hbad1 : strTrim bad ≠ "")
    (hbad2 : pyIsUpper (strTrim bad) = false)
    (hbad3 : strContains bad "\"" = false) :
    get_available_variables (pre ++ marker :: (mid ++ bad :: rest)) = [] := by
  have hloop : ∀ pre' : List String,
      (∀ l ∈ pre', strContains l "AGGREGATE CONDITION" = false) →
      ∃ e, gavLoop false [] (pre' ++ marker :: (mid ++ bad :: rest)) = .error e := by
    intro pre' hpre'
    induction pre' with
    | nil =>
        obtain ⟨e, he⟩ := gavLoop_error_suffix mid rest bad [] hmid hbadm hbad1 hbad2 hbad3
        refine ⟨e, ?_⟩
        have hstep : gavLoop false [] (marker :: (mid ++ bad :: rest)) =
            gavLoop true [] (mid ++ bad :: rest) := by
          generalize mid ++ bad :: rest = T
          rw [gavLoop, if_pos hmk]
        rw [List.nil_append, hstep, he]
    | cons p ps ih =>
        have hp := hpre' p (List.mem_cons_self _ _)
        obtain ⟨e, he⟩ := ih (fun l hl => hpre' l (List.mem_cons_of_mem _ hl))
        refine ⟨e, ?_⟩
        have hstep : gavLoop false [] (p :: (ps ++ marker :: (mid ++ bad :: rest))) =
            gavLoop false [] (ps ++ marker :: (mid ++ bad :: rest)) := by
          generalize ps ++ marker :: (mid ++ bad :: rest) = T
          rw [gavLoop]
          rw [if_neg (by simp [hp])]
          simp
        rw [List.cons_append, hstep, he]
  obtain ⟨e, he⟩ := hloop pre hpre
  rw [get_available_variables, he]

/-- C10 witness: a catalog whose body already yielded "Total Deposits" still
returns `[]` once the quoteless line "no quotes here" is reached. -/
theorem catalog_abandons_check :
    get_available_variables
      ["header", "AGGREGATE CONDITION (dollars)", "\"Total Deposits\",\"1\"",
       "no quotes here", "NEXT SECTION"] = [] :=
  catalog_abandons ["header"] ["\"Total Deposits\",\"1\""] ["NEXT SECTION"]
    "AGGREGATE CONDITION (dollars)" "no quotes here"
    (by decide) (by decide) (by decide) (by decide) (by decide) (by decide) (by decide)

end FDIC
